import Mathlib

/-!
Verification of the censorship aligner of the Hate-Speech audio masking app
(`src/app.py`).  The audio model: a `pydub.AudioSegment` is an ordered
sequence of millisecond frames, embedded as `List α`; `len(audio)` is
`List.length`, Python slicing `audio[a:b]` (with its clamping behaviour for
out-of-range indices) is `pySlice`, and `audio[a:]` is `List.drop`.
Word-level timings arrive from the recognizer as float seconds and the code
converts them with `int(t * 1000)`; floating point is not shallowly
embeddable, so a word timing is modelled as the already-converted
millisecond offsets (`start_ms`, `end_ms`).  The plain-text branch divides
`len(audio) / len(words)` in Python floats; it is embedded over `ℚ`, with
Python's `int()` truncation of a non-negative value embedded as the floor.
The toxicity classifier is an external model: it is embedded as an optional
function (`none` = failed to initialize, mirroring `toxicity_classifier =
None`) returning an optional top `(label, score)` result (`none` = the call
raised).
-/

namespace HateSpeechApp

/-- Python slice `xs[a:b]` for non-negative `a`, `b`: the elements with
index `i` such that `a ≤ i < b`, clamped to the length of `xs`. -/
def pySlice (xs : List α) (a b : Nat) : List α :=
  (xs.take b).drop a

/-- Python `int(q)` for a non-negative rational `q` (truncation towards
zero, which is the floor on non-negative values). -/
def pyInt (q : ℚ) : Nat :=
  (⌊q⌋).toNat

/-- Helper for `pySplit`: scans the characters, accumulating the current
word (reversed) in `acc`, emitting a word at each whitespace run boundary. -/
def pySplitAux : List Char → List Char → List String
  | acc, [] => if acc.isEmpty then [] else [String.mk acc.reverse]
  | acc, c :: cs =>
    if c.isWhitespace then
      if acc.isEmpty then pySplitAux [] cs
      else String.mk acc.reverse :: pySplitAux [] cs
    else pySplitAux (c :: acc) cs

/-- Python `s.split()` with no separator argument: split on runs of
whitespace, discarding empty pieces (`"  ".split() == []`). -/
def pySplit (s : String) : List String :=
  pySplitAux [] s.toList

/-- Python `s.strip()`: remove leading and trailing whitespace. -/
def pyStrip (s : String) : String :=
  String.mk (((s.toList.dropWhile Char.isWhitespace).reverse.dropWhile
    Char.isWhitespace).reverse)

/-- The classifier pipeline, abstracted: from a word to the top
`(label, score)` result, or `none` when the call raises (which also covers
`toxicity_classifier(word)[0]` failing on an empty result list). -/
def ClassifierFun : Type :=
  String → Option (String × ℚ)

/-- `is_toxic` (src/app.py lines 73-81): false on a blank/whitespace-only
word or an uninitialized classifier; otherwise the top result must carry
the label "Toxic" with score strictly above 0.7 (embedded as `7/10 : ℚ`);
any raising call yields false. -/
def is_toxic (classifier : Option ClassifierFun) (word : String) : Bool :=
  if (pyStrip word).isEmpty then false
  else match classifier with
    | none => false
    | some f =>
      match f word with
      | none => false
      | some r => r.1 == "Toxic" && decide ((7 : ℚ)/10 < r.2)

/-- One word-timing record, with the recognizer's float-second times
already converted to milliseconds (`int(word['start_time'] * 1000)` and
`int(word['end_time'] * 1000)` in src/app.py lines 93-94). -/
structure WordInfo where
  word : String
  start_ms : Nat
  end_ms : Nat
deriving DecidableEq, Repr

/-- The dynamic shape of `words_info`: a list of word timings, a plain
transcript string, or anything else (the code tests `isinstance` for
`list` and `str` and otherwise falls through both branches). -/
inductive WordsInfo where
  | timings (ws : List WordInfo)
  | text (s : String)
  | other
deriving DecidableEq

/-- How a `censor_audio` call can fail to produce a clip: the module-level
`beep` is `None` (the code returns `None`), or the plain-text branch
divides by a zero word count (Python raises `ZeroDivisionError`). -/
inductive CensorError where
  | toneUnavailable
  | zeroDivision
deriving DecidableEq, Repr

/-- The word-timings loop of `censor_audio` (src/app.py lines 91-103) with
the accumulated output rendered by recursion and the cursor `last_end`
passed explicitly: per word, append the gap slice when `last_end < start`,
then the beep if the word is toxic and otherwise the word's slice, and
continue with `last_end = end`; after the loop, append `audio[last_end:]`
when `last_end < len(audio)`. -/
def censorLoop (tone : List α) (tox : String → Bool) (audio : List α) :
    Nat → List WordInfo → List α
  | last_end, [] =>
    if last_end < audio.length then audio.drop last_end else []
  | last_end, w :: ws =>
    (if last_end < w.start_ms then pySlice audio last_end w.start_ms else [])
      ++ (if tox w.word then tone else pySlice audio w.start_ms w.end_ms)
      ++ censorLoop tone tox audio w.end_ms ws

/-- The plain-text loop of `censor_audio` (src/app.py lines 108-111), with
the `enumerate` index `i` passed explicitly: word `i` covers the slice
`[int(i * duration), int((i+1) * duration))`, replaced by the beep when
toxic. -/
def censorTextLoop (tone : List α) (tox : String → Bool) (audio : List α)
    (d : ℚ) : Nat → List String → List α
  | _, [] => []
  | i, w :: ws =>
    (if tox w then tone
     else pySlice audio (pyInt (i * d)) (pyInt ((i + 1) * d)))
      ++ censorTextLoop tone tox audio d (i + 1) ws

/-- `censor_audio` (src/app.py lines 83-113).  `tone` is the module-level
`beep` (`none` when tone generation failed at startup); `tox` is the
per-word toxicity predicate (the code calls the module-level `is_toxic`).
Returns `Except.error .toneUnavailable` for the `return None` on a missing
beep, `Except.error .zeroDivision` for the `ZeroDivisionError` that
`len(audio) / len(words)` raises on a zero word count, and otherwise the
censored clip; a `words_info` that is neither a list nor a string falls
through both `isinstance` branches and yields the initial
`AudioSegment.silent(duration=0)`, i.e. the empty clip. -/
def censor_audio (tone : Option (List α)) (tox : String → Bool)
    (words_info : WordsInfo) (audio : List α) :
    Except CensorError (List α) :=
  match tone with
  | none => .error .toneUnavailable
  | some beep =>
    match words_info with
    | .timings ws => .ok (censorLoop beep tox audio 0 ws)
    | .text s =>
      let words := pySplit s
      if words.length = 0 then .error .zeroDivision
      else .ok (censorTextLoop beep tox audio
        ((audio.length : ℚ) / (words.length : ℚ)) 0 words)
    | .other => .ok []

/-! ## Definitions taken from the spec's wording, for refinement claims -/

/-- The WordTimings algorithm as the spec words it (spec section 4.1):
for each word in order, if `start > last_end` append `[last_end, start)`;
append the tone if toxic, else `[start, end)`; set `last_end = end`; after
the loop append the trailing `[last_end, len(audio))` (as a slice, with no
guard). -/
def specCensorTimings (tone : List α) (tox : String → Bool)
    (audio : List α) : Nat → List WordInfo → List α
  | last_end, [] => pySlice audio last_end audio.length
  | last_end, w :: ws =>
    (if w.start_ms > last_end then pySlice audio last_end w.start_ms else [])
      ++ (if tox w.word then tone else pySlice audio w.start_ms w.end_ms)
      ++ specCensorTimings tone tox audio w.end_ms ws

/-- The PlainText algorithm as the spec words it (spec section 4.1): with
`duration = total_audio_length / word_count`, word `i` is apportioned the
slice `[floor(i * duration), floor((i+1) * duration))`, replaced by the
tone exactly when toxic, and the pieces are concatenated in order. -/
def specCensorText (tone : List α) (tox : String → Bool) (audio : List α)
    (words : List String) : List α :=
  let d : ℚ := (audio.length : ℚ) / (words.length : ℚ)
  (words.enum.map (fun p =>
    if tox p.2 then tone
    else pySlice audio (pyInt ((p.1 : ℚ) * d)) (pyInt (((p.1 : ℚ) + 1) * d)))).flatten

/-- The output shape the spec predicts when every word is toxic: the gap
slice before each word, then the tone in place of the word, and the
trailing audio after the last word. -/
def allToxicShape (tone : List α) (audio : List α) :
    Nat → List WordInfo → List α
  | last_end, [] => audio.drop last_end
  | last_end, w :: ws =>
    pySlice audio last_end w.start_ms ++ tone
      ++ allToxicShape tone audio w.end_ms ws

/-! ## Span well-formedness predicates -/

/-- The spans starting from cursor `last_end` are monotone and
non-overlapping: each word has `last_end ≤ start_ms ≤ end_ms` and the next
word starts no earlier than this one ends. -/
def spansMono : Nat → List WordInfo → Bool
  | _, [] => true
  | last_end, w :: ws =>
    decide (last_end ≤ w.start_ms) && decide (w.start_ms ≤ w.end_ms)
      && spansMono w.end_ms ws

/-- `spansMono` strengthened with containment in a clip of length `len`:
the final cursor (and hence every span) stays within the clip. -/
def spansWithin (len : Nat) : Nat → List WordInfo → Bool
  | last_end, [] => decide (last_end ≤ len)
  | last_end, w :: ws =>
    decide (last_end ≤ w.start_ms) && decide (w.start_ms ≤ w.end_ms)
      && spansWithin len w.end_ms ws

/-- Total milliseconds of the spans the predicate marks toxic. -/
def toxMs (tox : String → Bool) : List WordInfo → Nat
  | [] => 0
  | w :: ws => (if tox w.word then w.end_ms - w.start_ms else 0) + toxMs tox ws

/-- Number of words the predicate marks toxic. -/
def toxCount (tox : String → Bool) : List WordInfo → Nat
  | [] => 0
  | w :: ws => (if tox w.word then 1 else 0) + toxCount tox ws

/-! ## Slice algebra -/

theorem length_pySlice (xs : List α) (a b : Nat) :
    (pySlice xs a b).length = min b xs.length - a := by
  simp [pySlice]

theorem pySlice_self (xs : List α) (a : Nat) : pySlice xs a a = [] := by
  apply List.drop_eq_nil_of_le
  simp [Nat.min_le_left]

theorem pySlice_append_drop (xs : List α) {a b : Nat} (h : a ≤ b) :
    pySlice xs a b ++ xs.drop b = xs.drop a := by
  conv_rhs => rw [← List.take_append_drop b xs, List.drop_append_eq_append_drop]
  unfold pySlice
  congr 1
  rcases le_or_lt a (xs.take b).length with h1 | h1
  · rw [Nat.sub_eq_zero_of_le h1, List.drop_zero]
  · rw [List.length_take] at h1
    have hlen : xs.length ≤ b := by omega
    rw [List.drop_eq_nil_of_le hlen]
    simp

theorem pySlice_append_pySlice (xs : List α) {a b c : Nat} (hab : a ≤ b)
    (hbc : b ≤ c) : pySlice xs a b ++ pySlice xs b c = pySlice xs a c := by
  have h1 : pySlice xs a b = pySlice (xs.take c) a b := by
    simp [pySlice, List.take_take, Nat.min_eq_left hbc]
  have h2 : pySlice xs b c = (xs.take c).drop b := rfl
  have h3 : pySlice xs a c = (xs.take c).drop a := rfl
  rw [h1, h2, h3, pySlice_append_drop _ hab]

theorem pySlice_zero_length (xs : List α) : pySlice xs 0 xs.length = xs := by
  simp [pySlice]

theorem pyDrop_eq_pySlice (xs : List α) (a : Nat) :
    xs.drop a = pySlice xs a xs.length := by
  simp [pySlice]

/-! ## Loop lemmas -/

theorem spansWithin_le {len : Nat} :
    ∀ {last : Nat} {ws : List WordInfo}, spansWithin len last ws = true →
      last ≤ len := by
  intro last ws
  induction ws generalizing last with
  | nil => simp [spansWithin]
  | cons w ws ih =>
    simp only [spansWithin, Bool.and_eq_true, decide_eq_true_eq]
    rintro ⟨⟨h1, h2⟩, h3⟩
    exact le_trans h1 (le_trans h2 (ih h3))

theorem censorLoop_eq_spec (tone : List α) (tox : String → Bool)
    (audio : List α) : ∀ (last : Nat) (ws : List WordInfo),
    censorLoop tone tox audio last ws = specCensorTimings tone tox audio last ws := by
  intro last ws
  induction ws generalizing last with
  | nil =>
    simp only [censorLoop, specCensorTimings, pySlice, List.take_length]
    rcases lt_or_ge last audio.length with h | h
    · simp [h]
    · simp [not_lt.mpr h, List.drop_eq_nil_of_le h]
  | cons w ws ih =>
    simp only [censorLoop, specCensorTimings, gt_iff_lt, ih]

theorem censorLoop_eq_drop (tone : List α) (tox : String → Bool)
    (audio : List α) : ∀ (last : Nat) (ws : List WordInfo),
    spansMono last ws = true → (∀ w ∈ ws, tox w.word = false) →
    censorLoop tone tox audio last ws = audio.drop last := by
  intro last ws
  induction ws generalizing last with
  | nil =>
    intro _ _
    simp only [censorLoop]
    rcases lt_or_ge last audio.length with h | h
    · simp [h]
    · simp [not_lt.mpr h, List.drop_eq_nil_of_le h]
  | cons w ws ih =>
    simp only [spansMono, Bool.and_eq_true, decide_eq_true_eq, List.mem_cons]
    rintro ⟨⟨h1, h2⟩, h3⟩ htox
    have hw : tox w.word = false := htox w (Or.inl rfl)
    simp only [censorLoop, hw, Bool.false_eq_true, if_false,
      ih w.end_ms h3 (fun v hv => htox v (Or.inr hv)), ← List.append_assoc]
    have hgap : (if last < w.start_ms then pySlice audio last w.start_ms else [])
        ++ pySlice audio w.start_ms w.end_ms = pySlice audio last w.end_ms := by
      rcases lt_or_ge last w.start_ms with hls | hls
      · rw [if_pos hls, pySlice_append_pySlice _ (le_of_lt hls) h2]
      · have : last = w.start_ms := le_antisymm h1 hls
        rw [if_neg (by omega), this, List.nil_append]
    rw [hgap, pySlice_append_drop _ (le_trans h1 h2)]

theorem censorLoop_allToxic (tone : List α) (tox : String → Bool)
    (audio : List α) : ∀ (last : Nat) (ws : List WordInfo),
    spansMono last ws = true → (∀ w ∈ ws, tox w.word = true) →
    censorLoop tone tox audio last ws = allToxicShape tone audio last ws := by
  intro last ws
  induction ws generalizing last with
  | nil =>
    intro _ _
    simp only [censorLoop, allToxicShape]
    rcases lt_or_ge last audio.length with h | h
    · simp [h]
    · simp [not_lt.mpr h, List.drop_eq_nil_of_le h]
  | cons w ws ih =>
    simp only [spansMono, Bool.and_eq_true, decide_eq_true_eq, List.mem_cons]
    rintro ⟨⟨h1, h2⟩, h3⟩ htox
    have hw : tox w.word = true := htox w (Or.inl rfl)
    simp only [censorLoop, allToxicShape, hw, if_true,
      ih w.end_ms h3 (fun v hv => htox v (Or.inr hv))]
    congr 1
    rcases lt_or_ge last w.start_ms with hls | hls
    · rw [if_pos hls]
    · have : last = w.start_ms := le_antisymm h1 hls
      rw [if_neg (by omega), this, pySlice_self]

theorem censorLoop_length (tone : List α) (tox : String → Bool)
    (audio : List α) : ∀ (last : Nat) (ws : List WordInfo),
    spansWithin audio.length last ws = true →
    (censorLoop tone tox audio last ws).length + toxMs tox ws =
      (audio.length - last) + toxCount tox ws * tone.length := by
  intro last ws
  induction ws generalizing last with
  | nil =>
    simp only [spansWithin, decide_eq_true_eq]
    intro h
    simp only [censorLoop, toxMs, toxCount, Nat.zero_mul, Nat.add_zero]
    rcases lt_or_ge last audio.length with hl | hl
    · simp [hl]
    · have : last = audio.length := le_antisymm h hl
      simp [not_lt.mpr hl, this]
  | cons w ws ih =>
    simp only [spansWithin, Bool.and_eq_true, decide_eq_true_eq]
    rintro ⟨⟨h1, h2⟩, h3⟩
    have hend : w.end_ms ≤ audio.length := spansWithin_le h3
    have hih := ih w.end_ms h3
    simp only [censorLoop, toxMs, toxCount, List.length_append]
    have hgap : (if last < w.start_ms then pySlice audio last w.start_ms
        else []).length = w.start_ms - last := by
      rcases lt_or_ge last w.start_ms with hls | hls
      · rw [if_pos hls, length_pySlice]
        omega
      · rw [if_neg (by omega)]
        simp
        omega
    rcases htx : tox w.word with _ | _
    · simp only [htx, Bool.false_eq_true, if_false, length_pySlice, hgap,
        Nat.zero_add, Nat.min_eq_left hend]
      omega
    · simp only [htx, if_true, hgap, Nat.add_mul, Nat.one_mul]
      omega

theorem pyInt_mono {q r : ℚ} (h : q ≤ r) : pyInt q ≤ pyInt r :=
  Int.toNat_le_toNat (Int.floor_le_floor h)

theorem pyInt_natCast (n : Nat) : pyInt ((n : ℚ)) = n := by
  simp [pyInt, Int.floor_natCast]

theorem censorTextLoop_eq_flatten (tone : List α) (tox : String → Bool)
    (audio : List α) (d : ℚ) : ∀ (ws : List String) (i : Nat),
    censorTextLoop tone tox audio d i ws =
      ((List.enumFrom i ws).map (fun p =>
        if tox p.2 then tone
        else pySlice audio (pyInt ((p.1 : ℚ) * d))
          (pyInt (((p.1 : ℚ) + 1) * d)))).flatten := by
  intro ws
  induction ws with
  | nil => intro i; rfl
  | cons w ws ih =>
    intro i
    simp only [censorTextLoop, List.enumFrom, List.map_cons, List.flatten_cons,
      ih (i + 1)]

theorem censorTextLoop_eq_pySlice (tone : List α) (tox : String → Bool)
    (audio : List α) {d : ℚ} (hd : 0 ≤ d) : ∀ (ws : List String) (i : Nat),
    (∀ w ∈ ws, tox w = false) →
    censorTextLoop tone tox audio d i ws =
      pySlice audio (pyInt ((i : ℚ) * d))
        (pyInt (((i + ws.length : Nat) : ℚ) * d)) := by
  intro ws
  induction ws with
  | nil =>
    intro i _
    simp only [censorTextLoop, List.length_nil, Nat.add_zero]
    exact (pySlice_self audio _).symm
  | cons w ws ih =>
    intro i htox
    have hw : tox w = false := htox w (List.mem_cons_self w ws)
    have hrec := ih (i + 1) (fun v hv => htox v (List.mem_cons_of_mem w hv))
    simp only [censorTextLoop, hw, Bool.false_eq_true, if_false, hrec]
    have h1 : (i : ℚ) * d ≤ ((i : ℚ) + 1) * d :=
      mul_le_mul_of_nonneg_right (by linarith) hd
    have hcast : (((i + 1 : Nat)) : ℚ) = (i : ℚ) + 1 := by push_cast; ring
    have h2 : ((i : ℚ) + 1) * d ≤ (((i + 1 + ws.length : Nat)) : ℚ) * d := by
      apply mul_le_mul_of_nonneg_right _ hd
      push_cast
      linarith
    rw [hcast, pySlice_append_pySlice audio (pyInt_mono h1) (pyInt_mono h2)]
    have harith : i + 1 + ws.length = i + (ws.length + 1) := by omega
    simp only [List.length_cons, harith]

theorem censorTextLoop_id (tone : List α) (tox : String → Bool)
    (audio : List α) (words : List String) (hne : words ≠ [])
    (htox : ∀ w ∈ words, tox w = false) :
    censorTextLoop tone tox audio
      ((audio.length : ℚ) / (words.length : ℚ)) 0 words = audio := by
  have hn : ((words.length : ℚ)) ≠ 0 :=
    Nat.cast_ne_zero.mpr (fun h => hne (List.length_eq_zero.mp h))
  have hd : 0 ≤ (audio.length : ℚ) / (words.length : ℚ) :=
    div_nonneg (Nat.cast_nonneg _) (Nat.cast_nonneg _)
  rw [censorTextLoop_eq_pySlice tone tox audio hd words 0 htox]
  have hzero : pyInt ((0 : ℚ) * ((audio.length : ℚ) / (words.length : ℚ))) = 0 := by
    simp [pyInt]
  have hfull : (((0 + words.length : Nat)) : ℚ) *
      ((audio.length : ℚ) / (words.length : ℚ)) = (audio.length : ℚ) := by
    push_cast
    field_simp
  rw [show ((0 : Nat) : ℚ) = (0 : ℚ) by norm_num, hzero, hfull]
  have hlen : pyInt ((audio.length : ℚ)) = audio.length := by
    simp [pyInt, Int.floor_natCast]
  rw [hlen, pySlice_zero_length]

/-! ## Claim theorems -/

/-- C1: on a word-timings transcription, `censor_audio` builds its output
exactly as the spec words it — gap slice `[last_end, start)` whenever
`start > last_end`, then the tone for a toxic word and otherwise the slice
`[start, end)`, cursor advanced to `end`, trailing `[last_end, len(audio))`
appended after the loop — and on the 3000ms clip with words bad/cat/run at
`[0,1000)`, `[1000,2000)`, `[2000,3000)` and only "bad" toxic, the output
is `tone ++ audio[1000:2000] ++ audio[2000:3000]`. -/
theorem censor_timings_follows_spec (α : Type) :
    (∀ (tone : List α) (tox : String → Bool) (audio : List α)
      (ws : List WordInfo),
      censor_audio (some tone) tox (.timings ws) audio =
        .ok (specCensorTimings tone tox audio 0 ws))
    ∧ ∀ (audio tone : List Nat), audio.length = 3000 →
      censor_audio (some tone) (fun w => w == "bad")
        (.timings [⟨"bad", 0, 1000⟩, ⟨"cat", 1000, 2000⟩, ⟨"run", 2000, 3000⟩])
        audio
        = .ok (tone ++ pySlice audio 1000 2000 ++ pySlice audio 2000 3000) := by
  constructor
  · intro tone tox audio ws
    simp only [censor_audio, censorLoop_eq_spec]
  · intro audio tone h
    simp [censor_audio, censorLoop, h]

/-- C1 witness: the 3000ms example evaluated on the concrete clip
`List.range 3000` with a one-frame tone. -/
theorem censor_timings_follows_spec_witness :
    censor_audio (some [7]) (fun w => w == "bad")
      (.timings [⟨"bad", 0, 1000⟩, ⟨"cat", 1000, 2000⟩, ⟨"run", 2000, 3000⟩])
      (List.range 3000)
      = .ok ([7] ++ pySlice (List.range 3000) 1000 2000
          ++ pySlice (List.range 3000) 2000 3000) :=
  (censor_timings_follows_spec Nat).2 (List.range 3000) [7] (by simp)

/-- C2 (code bug): an empty word-timings list does return the original
audio unchanged, but the plain-text path is not guarded — a
whitespace-only transcript splits into zero words and the code raises
`ZeroDivisionError` at `len(audio) / len(words)` instead of returning the
clip unchanged. -/
theorem censor_empty_transcript (α : Type) (beep : List α)
    (tox : String → Bool) (audio : List α) :
    censor_audio (some beep) tox (.text " ") audio = .error .zeroDivision
    ∧ censor_audio (some beep) tox (.timings []) audio = .ok audio := by
  constructor
  · rfl
  · cases audio with
    | nil => rfl
    | cons a as => simp [censor_audio, censorLoop]

/-- C3: `is_toxic` is true exactly when the classifier's top result
carries label "Toxic" with score strictly above 0.7; a raising call or an
uninitialized classifier yields false, and a blank/whitespace-only word
yields false whatever the classifier would say. -/
theorem is_toxic_spec :
    (∀ (f : ClassifierFun) (w label : String) (score : ℚ),
      (pyStrip w).isEmpty = false → f w = some (label, score) →
      (is_toxic (some f) w = true ↔ (label = "Toxic" ∧ (7 : ℚ)/10 < score)))
    ∧ (∀ (f : ClassifierFun) (w : String), f w = none →
        is_toxic (some f) w = false)
    ∧ (∀ w : String, is_toxic none w = false)
    ∧ (∀ (cl : Option ClassifierFun) (w : String),
        (pyStrip w).isEmpty = true → is_toxic cl w = false) := by
  refine ⟨?_, ?_, ?_, ?_⟩
  · intro f w label score hw hf
    simp [is_toxic, hw, hf]
  · intro f w hf
    simp [is_toxic, hf]
  · intro w
    simp [is_toxic]
  · intro cl w hw
    simp [is_toxic, hw]

/-- C3 witness: a classifier returning ("Toxic", 4/5) on the non-blank
word "bad" makes `is_toxic` true. -/
theorem is_toxic_spec_witness :
    is_toxic (some (fun _ => some ("Toxic", 4/5))) "bad" = true :=
  (is_toxic_spec.1 (fun _ => some ("Toxic", 4/5)) "bad" "Toxic" (4/5)
    (by decide) rfl).mpr ⟨rfl, by norm_num⟩

/-- C4: on a plain-text transcription with at least one word,
`censor_audio` apportions word `i` the slice
`[floor(i * duration), floor((i+1) * duration))` with
`duration = len(audio) / word_count`, replacing it with the tone exactly
when toxic; and on "bad cat" over a 2000ms clip with only "bad" toxic the
output is `tone ++ audio[1000:2000]`. -/
theorem censor_plaintext_apportion (α : Type) :
    (∀ (tone : List α) (tox : String → Bool) (audio : List α) (s : String),
      pySplit s ≠ [] →
      censor_audio (some tone) tox (.text s) audio =
        .ok (specCensorText tone tox audio (pySplit s)))
    ∧ ∀ (audio tone : List Nat), audio.length = 2000 →
      censor_audio (some tone) (fun w => w == "bad") (.text "bad cat") audio
        = .ok (tone ++ pySlice audio 1000 2000) := by
  constructor
  · intro tone tox audio s hne
    simp only [censor_audio]
    rw [if_neg (by simpa [List.length_eq_zero] using hne)]
    simp only [specCensorText, List.enum, censorTextLoop_eq_flatten]
  · intro audio tone h
    have hsplit : pySplit "bad cat" = ["bad", "cat"] := by decide
    simp only [censor_audio, hsplit, List.length_cons, List.length_nil]
    norm_num
    simp only [censorTextLoop, h]
    norm_num
    rw [if_neg (by decide : ¬("cat" = "bad")),
      show (1000 : ℚ) = ((1000 : Nat) : ℚ) by norm_num,
      show (2000 : ℚ) = ((2000 : Nat) : ℚ) by norm_num,
      pyInt_natCast, pyInt_natCast]

/-- C4 witness: the general apportionment applied to the one-word text
"a" on a concrete two-frame clip. -/
theorem censor_plaintext_apportion_witness :
    censor_audio (some [3]) (fun _ => false) (.text "a") [1, 2]
      = .ok (specCensorText [3] (fun _ => false) [1, 2] (pySplit "a")) :=
  (censor_plaintext_apportion Nat).1 [3] (fun _ => false) [1, 2] "a" (by decide)

/-- C5: with the tone unavailable (`beep = None`), `censor_audio` fails
for every transcription and audio input instead of producing output. -/
theorem censor_no_tone_fails (α : Type) (tox : String → Bool)
    (wi : WordsInfo) (audio : List α) :
    censor_audio (none : Option (List α)) tox wi audio =
      .error .toneUnavailable := rfl

/-- C6 counterexample: one monotone in-clip toxic span of 2ms replaced by
a 1ms tone makes the output 2ms shorter than the 3ms input, so the output
duration does not equal the input duration for every toxicity predicate. -/
theorem censor_duration_counterexample :
    censor_audio (some [9]) (fun w => w == "bad")
      (.timings [⟨"bad", 0, 2⟩]) [0, 1, 2] = .ok [9, 2]
    ∧ spansWithin ([0, 1, 2] : List Nat).length 0 [⟨"bad", 0, 2⟩] = true
    ∧ ([9, 2] : List Nat).length ≠ ([0, 1, 2] : List Nat).length :=
  ⟨rfl, by decide, by decide⟩

/-- C6 amended: for monotone non-overlapping spans contained in the clip,
the output duration equals the input duration with each toxic span's
length traded for one tone length: `len(out) + toxic_ms = len(audio) +
toxic_count * len(tone)`; in particular the duration is preserved exactly
when no processed word is toxic. -/
theorem censor_timings_duration (tone : List α) (tox : String → Bool)
    (audio : List α) (ws : List WordInfo)
    (h : spansWithin audio.length 0 ws = true) :
    censor_audio (some tone) tox (.timings ws) audio =
      .ok (censorLoop tone tox audio 0 ws)
    ∧ (censorLoop tone tox audio 0 ws).length + toxMs tox ws =
      audio.length + toxCount tox ws * tone.length := by
  refine ⟨rfl, ?_⟩
  simpa using censorLoop_length tone tox audio 0 ws h

/-- C6 witness: the duration ledger evaluated on a 4ms clip with one
toxic 2ms span and a 1ms tone. -/
theorem censor_timings_duration_witness :
    censor_audio (some [5]) (fun w => w == "bad")
      (.timings [⟨"bad", 1, 3⟩]) [0, 1, 2, 3] =
      .ok (censorLoop [5] (fun w => w == "bad") [0, 1, 2, 3] 0 [⟨"bad", 1, 3⟩])
    ∧ (censorLoop [5] (fun w => w == "bad") [0, 1, 2, 3] 0
        [⟨"bad", 1, 3⟩]).length
        + toxMs (fun w => w == "bad") [⟨"bad", 1, 3⟩] =
      ([0, 1, 2, 3] : List Nat).length
        + toxCount (fun w => w == "bad") [⟨"bad", 1, 3⟩] * ([5] : List Nat).length :=
  censor_timings_duration [5] (fun w => w == "bad") [0, 1, 2, 3]
    [⟨"bad", 1, 3⟩] (by decide)

/-- C7 counterexample: with an always-throwing classifier the fail-open
identity fails on a `words_info` that is neither a list nor a string — the
code returns the empty clip, not the input audio. -/
theorem censor_failopen_counterexample :
    censor_audio (some [9]) (is_toxic (some (fun _ => none)))
      WordsInfo.other [5] = .ok []
    ∧ censor_audio (some [9]) (is_toxic (some (fun _ => none)))
        WordsInfo.other [5] ≠ .ok [5] :=
  ⟨rfl, by simp [censor_audio]⟩

/-- C7 amended: with the tone available, if the classifier throws on every
invocation then `censor_audio` returns the input audio unchanged on every
word-timings transcription with monotone non-overlapping spans and on
every plain-text transcription with at least one word. -/
theorem censor_failopen_identity (tone : List α) (audio : List α)
    (f : ClassifierFun) (hf : ∀ w, f w = none) :
    (∀ ws : List WordInfo, spansMono 0 ws = true →
      censor_audio (some tone) (is_toxic (some f)) (.timings ws) audio =
        .ok audio)
    ∧ ∀ s : String, pySplit s ≠ [] →
      censor_audio (some tone) (is_toxic (some f)) (.text s) audio =
        .ok audio := by
  have htox : ∀ w, is_toxic (some f) w = false := by
    intro w
    simp [is_toxic, hf w]
  constructor
  · intro ws hws
    simp only [censor_audio]
    rw [censorLoop_eq_drop tone _ audio 0 ws hws (fun w _ => htox w.word),
      List.drop_zero]
  · intro s hne
    simp only [censor_audio]
    rw [if_neg (by simpa [List.length_eq_zero] using hne)]
    rw [censorTextLoop_id tone _ audio (pySplit s) hne (fun w _ => htox w)]

/-- C7 witness: the fail-open identity evaluated on a concrete clip, one
timed word, and the classifier that throws on every call. -/
theorem censor_failopen_identity_witness :
    censor_audio (some [9]) (is_toxic (some (fun _ => none)))
      (.timings [⟨"a", 0, 1⟩]) [5, 6] = .ok [5, 6] :=
  (censor_failopen_identity [9] [5, 6] (fun _ => none) (fun _ => rfl)).1
    [⟨"a", 0, 1⟩] (by decide)

/-- C8: when every word of a monotone word-timings transcription is
toxic, the output is exactly the gap slices interleaved with tone copies,
with the trailing audio preserved — no original word audio survives. -/
theorem censor_all_toxic (tone : List α) (tox : String → Bool)
    (audio : List α) (ws : List WordInfo) (hmono : spansMono 0 ws = true)
    (htox : ws.all (fun w => tox w.word) = true) :
    censor_audio (some tone) tox (.timings ws) audio =
      .ok (allToxicShape tone audio 0 ws) := by
  simp only [censor_audio]
  rw [censorLoop_allToxic tone tox audio 0 ws hmono
    (by simpa [List.all_eq_true] using htox)]

/-- C8 witness: the all-toxic shape evaluated on a concrete clip with one
word covering `[0, 2)` and every word toxic. -/
theorem censor_all_toxic_witness :
    censor_audio (some [7]) (fun _ => true) (.timings [⟨"x", 0, 2⟩]) [1, 2, 3]
      = .ok (allToxicShape [7] [1, 2, 3] 0 [⟨"x", 0, 2⟩]) :=
  censor_all_toxic [7] (fun _ => true) [1, 2, 3] [⟨"x", 0, 2⟩]
    (by decide) (by decide)

/-- C9: `censor_audio` is a pure function of the tone, the toxicity
predicate, the transcription, and the audio — two runs on the same inputs
produce identical output clips. -/
theorem censor_deterministic (tone : Option (List α)) (tox : String → Bool)
    (wi : WordsInfo) (audio : List α) :
    censor_audio tone tox wi audio = censor_audio tone tox wi audio := rfl

/-- C10: a `words_info` that is neither a word-timings list nor a string
falls through both `isinstance` branches, so `censor_audio` (with the tone
available) returns the empty zero-duration clip — neither the original
audio nor a failure. -/
theorem censor_other_empty (α : Type) (tone : List α) (tox : String → Bool)
    (audio : List α) :
    censor_audio (some tone) tox WordsInfo.other audio = .ok ([] : List α) :=
  rfl

end HateSpeechApp
